import Mathlib

/-!
Verification development for the Premiere timeline extractor.

Shallow embedding of the repository's core logic:
* `components/helpers.py` and `components/time_converter.py` (timecode and
  tick/seconds conversion),
* `components/source_resolver.py` (provider pattern registry),
* `components/clip_detector.py` / the inline copy in `export_timeline_csv.py`
  (clip-type classification),
* `export_timeline_csv.py` (`flatten_sequence`, `generate_timeline_data`),
* `components/xml_parser.py` (`XMLProjectParser.parse`, the name index).

Embedding conventions: Python strings are `List Char` (`Str`); Python floats
are modelled exactly as `ℚ` (the claims under study do not depend on binary
rounding of floats); Python ints are `Int`/`Nat`; functions that may raise are
`Option`/`Except`; the unboundedly recursive `flatten_sequence` takes an
explicit fuel argument, returning `none` when the recursion exceeds the fuel
(so "`none` for every fuel" witnesses non-termination).  Character-level
operations (`str.lower`, `\s`, `\d`, `\b`) are modelled on their ASCII
fragment, which is the fragment the repository's data exercises.
-/

set_option maxHeartbeats 1000000

/-- Python strings are modelled as lists of characters. -/
abbrev Str := List Char

/-- ASCII whitespace, the characters matched by Python's `\s` (ASCII part). -/
def isSpaceCh (c : Char) : Bool :=
  c = ' ' || c = '\t' || c = '\n' || c = '\r' || c = '\x0b' || c = '\x0c'

/-- ASCII decimal digit test, Python's `str.isdigit` / `\d` (ASCII part). -/
def isDigitCh (c : Char) : Bool :=
  48 ≤ c.toNat && c.toNat ≤ 57

/-- Value of one decimal digit character, `none` for non-digits. -/
def digit? (c : Char) : Option Nat :=
  if isDigitCh c then some (c.toNat - 48) else none

/-- The decimal digit character for `n < 10` (as produced by Python's `%d`). -/
def digitChar (n : Nat) : Char := Char.ofNat (48 + n)

/-- Decimal digits of `n` prepended to `acc`, most significant first
(the digit string Python's `"%d" % n` produces).  Structural recursion on a
fuel argument; callers pass `fuel ≥ n`, which always suffices. -/
def natDigitsGo : Nat → Nat → Str → Str
  | 0, n, acc => digitChar n :: acc
  | fuel + 1, n, acc =>
    if n < 10 then digitChar n :: acc
    else natDigitsGo fuel (n / 10) (digitChar (n % 10) :: acc)

/-- Decimal representation of a natural number. -/
def natDigits (n : Nat) : Str := natDigitsGo n n []

/-- Zero-padding to width 2, Python's `f"{n:02d}"` for non-negative `n`. -/
def pad2 (n : Nat) : Str :=
  let d := natDigits n
  if d.length < 2 then '0' :: d else d

/-- Accumulating decimal parser over a digit string. -/
def parseDigitsCore (acc : Nat) : Str → Option Nat
  | [] => some acc
  | c :: cs =>
    match digit? c with
    | some d => parseDigitsCore (acc * 10 + d) cs
    | none => none

/-- Parses a non-empty all-digit string to a natural number. -/
def parseDigits (s : Str) : Option Nat :=
  match s with
  | [] => none
  | _ :: _ => parseDigitsCore 0 s

/-- Strips leading and trailing ASCII whitespace (Python `str.strip`). -/
def stripWS (s : Str) : Str :=
  ((s.dropWhile isSpaceCh).reverse.dropWhile isSpaceCh).reverse

/-- Python's `int(str)` on the inputs arising here: optional surrounding
whitespace, an optional sign, then decimal digits; `none` models the
`ValueError` raised on anything else.  (Numeric-literal underscores, accepted
by CPython, are not produced by any code path modelled here.) -/
def pyInt? (s : Str) : Option Int :=
  match stripWS s with
  | '-' :: rest => (parseDigits rest).map (fun n => -(n : Int))
  | '+' :: rest => (parseDigits rest).map (fun n => (n : Int))
  | t => (parseDigits t).map (fun n => (n : Int))

/-- Splits on `':'`, Python's `str.split(':')` (so `""` gives `[""]`). -/
def splitColon : Str → List Str
  | [] => [[]]
  | c :: cs =>
    if c = ':' then [] :: splitColon cs
    else
      match splitColon cs with
      | [] => [[c]]
      | h :: t => (c :: h) :: t

/-- Python's `round` on an exact rational: round half to even. -/
def pyRound (q : ℚ) : Int :=
  let f : Int := ⌊q⌋
  let r : ℚ := q - f
  if r < 1 / 2 then f
  else if 1 / 2 < r then f + 1
  else if f % 2 = 0 then f else f + 1

/-- Embedding of `tc_to_seconds` (`components/helpers.py` lines 67-86; the
copy in `components/time_converter.py` returns the same value as a float):
parse `HH:MM:SS`, returning 0 on malformed input. -/
def tc_to_seconds (tc : Str) : Int :=
  if tc = [] then 0
  else
    match splitColon tc with
    | [p1, p2, p3] =>
      match pyInt? p1, pyInt? p2, pyInt? p3 with
      | some h, some m, some s => h * 3600 + m * 60 + s
      | _, _, _ => 0
    | _ => 0

/-- Embedding of `tc_from_seconds` (`components/helpers.py` lines 89-109 /
`components/time_converter.py` lines 35-57): round to the nearest integer
second and format as zero-padded `HH:MM:SS` with a leading `-` when
negative. -/
def tc_from_seconds (s : ℚ) : Str :=
  let s_round : Int := pyRound s
  let sign : Str := if s_round < 0 then ['-'] else []
  let s_abs : Nat := s_round.natAbs
  let hh := s_abs / 3600
  let mm := (s_abs % 3600) / 60
  let ss := s_abs % 60
  sign ++ pad2 hh ++ ':' :: pad2 mm ++ ':' :: pad2 ss

/-- Embedding of `seconds_aligned_from_raw` (`export_timeline_csv.py` lines
30-40 / `components/time_converter.py` lines 59-87): `frames = round(raw /
ticks_per_frame)`, `seconds = frames / fps`; `none` when any input is
missing. -/
def seconds_aligned_from_raw (raw : Option Int) (ticks_per_frame : Option Int)
    (fps : Option ℚ) : Option ℚ :=
  match raw, ticks_per_frame, fps with
  | some r, some t, some f => some ((pyRound ((r : ℚ) / (t : ℚ)) : ℚ) / f)
  | _, _, _ => none

/-! ## Source resolver (`components/source_resolver.py`) -/

/-- ASCII lowercasing, Python's `str.lower` on the ASCII fragment. -/
def toLowerStr (s : Str) : Str := s.map Char.toLower

/-- Does `s` start with the (already lowercase) pattern `pat`, comparing
case-insensitively?  Models matching a literal under `re.IGNORECASE`. -/
def lowerStarts : Str → Str → Bool
  | [], _ => true
  | _ :: _, [] => false
  | pc :: pr, c :: cr => pc = c.toLower && lowerStarts pr cr

/-- Does the (lowercase) pattern occur at some position of `s`,
case-insensitively? -/
def lowerOccurs (pat : Str) : Str → Bool
  | [] => lowerStarts pat []
  | c :: r => lowerStarts pat (c :: r) || lowerOccurs pat r

/-- Does the (lowercase) pattern occur at a position of `s` reachable from the
start without crossing a newline?  Models `.*` followed by a literal in Python
`re` (where `.` does not match `'\n'`). -/
def lowerOccursNoNl (pat : Str) : Str → Bool
  | [] => lowerStarts pat []
  | c :: r => lowerStarts pat (c :: r) || (!(c = '\n') && lowerOccursNoNl pat r)

/-- Leftmost-position search: try the positional matcher `f` at each suffix,
left to right, as Python's `re.search` tries start positions. -/
def searchFirst (f : Str → Option α) : Str → Option α
  | [] => f []
  | c :: rest =>
    match f (c :: rest) with
    | some r => some r
    | none => searchFirst f rest

/-- A source-recognition match, the `SourceMatch` dataclass
(`components/source_resolver.py` lines 5-10). -/
structure SourceMatch where
  source : Str
  media_id : Option Str := none
  title : Option Str := none
deriving DecidableEq, Repr

/-- The default match `SourceMatch(source="Unknown")`. -/
def default_match : SourceMatch := { source := "Unknown".toList }

/-- Shared title post-processing of all three registry parsers:
`group.replace('_', ' ').strip()` when the group is present and non-empty,
else the `"[No Title]"` placeholder. -/
def titleOfGroup (g : Option Str) : Str :=
  match g with
  | some t =>
    if t = [] then "[No Title]".toList
    else stripWS (t.map (fun c => if c = '_' then ' ' else c))
  | none => "[No Title]".toList

/-- Positional match of `imago(\d+)(?:_([^.]+))?` (IGNORECASE): the literal
`imago`, a maximal non-empty digit run, then optionally `_` followed by a
maximal non-empty run of non-`.` characters.  Captures keep original case. -/
def imagoCapture (s : Str) : Option (Str × Option Str) :=
  if lowerStarts "imago".toList s then
    let rest := s.drop 5
    let digits := rest.takeWhile (fun c => isDigitCh c)
    if digits = [] then none
    else
      match rest.drop digits.length with
      | '_' :: t =>
        let title := t.takeWhile (fun c => !(c = '.'))
        if title = [] then some (digits, none) else some (digits, some title)
      | _ => some (digits, none)
  else none

/-- Registry entry "Imago": `re.search` of the Imago pattern fused with its
result parser (`source_resolver.py` lines 18-26). -/
def imagoTry (clip_name : Str) : Option SourceMatch :=
  (searchFirst imagoCapture clip_name).map fun m =>
    { source := "Imago".toList, media_id := some m.1, title := some (titleOfGroup m.2) }

/-- Positional match of `COLOURBOX(\d+)(?:_([^.]+))?` (IGNORECASE), same shape
as the Imago pattern. -/
def colourboxCapture (s : Str) : Option (Str × Option Str) :=
  if lowerStarts "colourbox".toList s then
    let rest := s.drop 9
    let digits := rest.takeWhile (fun c => isDigitCh c)
    if digits = [] then none
    else
      match rest.drop digits.length with
      | '_' :: t =>
        let title := t.takeWhile (fun c => !(c = '.'))
        if title = [] then some (digits, none) else some (digits, some title)
      | _ => some (digits, none)
  else none

/-- Registry entry "Colourbox" (`source_resolver.py` lines 27-35). -/
def colourboxTry (clip_name : Str) : Option SourceMatch :=
  (searchFirst colourboxCapture clip_name).map fun m =>
    { source := "Colourbox".toList, media_id := some m.1, title := some (titleOfGroup m.2) }

/-- Lazy scan for group 2 of the Artlist pattern `(.*?)_(?:By|From)_.*_Artlist`:
starting after the `_` that follows the digits, extend the (newline-free) title
one character at a time until `_By_` or `_From_` starts here and `_Artlist` is
reachable afterwards without crossing a newline. -/
def artlistScan : Str → Str → Option Str
  | acc, rest =>
    if lowerStarts "_by_".toList rest && lowerOccursNoNl "_artlist".toList (rest.drop 4) then
      some acc.reverse
    else if lowerStarts "_from_".toList rest && lowerOccursNoNl "_artlist".toList (rest.drop 6) then
      some acc.reverse
    else
      match rest with
      | [] => none
      | c :: r => if c = '\n' then none else artlistScan (c :: acc) r
termination_by _ rest => rest.length
decreasing_by simp

/-- Positional match of `(\d+)_(.*?)_(?:By|From)_.*_Artlist` (IGNORECASE):
a maximal non-empty digit run followed by `_`, then the lazy title scan. -/
def artlistCapture (s : Str) : Option (Str × Str) :=
  let digits := s.takeWhile (fun c => isDigitCh c)
  if digits = [] then none
  else
    match s.drop digits.length with
    | '_' :: p => (artlistScan [] p).map fun t => (digits, t)
    | _ => none

/-- Registry entry "Artlist" (`source_resolver.py` lines 36-45); an empty
group 2 is falsy in Python, yielding the `"[No Title]"` placeholder. -/
def artlistTry (clip_name : Str) : Option SourceMatch :=
  (searchFirst artlistCapture clip_name).map fun m =>
    { source := "Artlist".toList, media_id := some m.1,
      title := some (titleOfGroup (if m.2 = [] then none else some m.2)) }

/-- The ordered pattern registry of `SourceResolver.__init__`, each entry
fused into a match-and-parse function. -/
def resolveRegistry : List (Str → Option SourceMatch) :=
  [imagoTry, colourboxTry, artlistTry]

/-- The first-match-wins loop of `SourceResolver.resolve`. -/
def resolveFrom : List (Str → Option SourceMatch) → Str → SourceMatch
  | [], _ => default_match
  | f :: rest, nm =>
    match f nm with
    | some m => m
    | none => resolveFrom rest nm

/-- Embedding of `SourceResolver.resolve` (`source_resolver.py` lines 49-67):
empty names short-circuit to the default match, otherwise the registry is
evaluated top to bottom and the first matching pattern wins. -/
def resolve (clip_name : Str) : SourceMatch :=
  if clip_name = [] then default_match else resolveFrom resolveRegistry clip_name

/-! ## Clip classifier (`components/clip_detector.py`; `export_timeline_csv.py`
lines 391-459 carries an identical inline copy with the same literal
extension sets, `config.py` lines 33-49) -/

/-- The clip-type labels returned by `detect_clip_type`. -/
inductive ClipType where
  | video
  | audio
  | image
  | graphic
  | unknown
deriving DecidableEq, Repr

/-- An ASCII word character, Python's `\w` (ASCII part), used for `\b`. -/
def isWordCh (c : Char) : Bool :=
  ('a' ≤ c && c ≤ 'z') || ('A' ≤ c && c ≤ 'Z') || ('0' ≤ c && c ≤ '9') || c = '_'

/-- A character matched by the class `[a-z0-9]` of the extension pattern
(the scanned text is already lowercased). -/
def isExtCh (c : Char) : Bool :=
  ('a' ≤ c && c ≤ 'z') || ('0' ≤ c && c ≤ '9')

/-- Collapses each whitespace run to a single space:
`re.sub(r"\s+", " ", s)`. -/
def normWS : Str → Str
  | [] => []
  | [c] => if isSpaceCh c then [' '] else [c]
  | c :: d :: r =>
    if isSpaceCh c then
      if isSpaceCh d then normWS (d :: r) else ' ' :: normWS (d :: r)
    else c :: normWS (d :: r)

/-- Scan for the leftmost match of `\.([a-z0-9]{2,20})(?:\b|$)`: a dot
followed by a maximal run of 2 to 20 class characters, ending at a word
boundary or the end of the string (a longer run, or a following `_`, makes
every greedy/backtracked width fail, so the scan moves on). -/
def findExtCore : Str → Option Str
  | [] => none
  | c :: rest =>
    if c = '.' then
      let run := rest.takeWhile isExtCh
      let ok : Bool :=
        (2 ≤ run.length && run.length ≤ 20) &&
          (match rest.drop run.length with
           | [] => true
           | a :: _ => !isWordCh a)
      if ok then some ('.' :: run) else findExtCore rest
    else findExtCore rest

/-- Embedding of `find_extension_in_string` (`clip_detector.py` lines 25-46 /
`export_timeline_csv.py` lines 433-441): lowercase, collapse whitespace, then
search for the extension pattern. -/
def find_extension_in_string (s : Str) : Option Str :=
  if s = [] then none else findExtCore (normWS (toLowerStr s))

/-- The configured video extension set (`config.VIDEO_EXT`). -/
def video_exts : List Str :=
  [".mp4".toList, ".mov".toList, ".mkv".toList, ".avi".toList, ".wmv".toList,
   ".mxf".toList, ".m2ts".toList, ".m2t".toList, ".mts".toList, ".mpeg".toList,
   ".mpg".toList, ".flv".toList, ".webm".toList, ".3gp".toList, ".ogv".toList]

/-- The configured audio extension set (`config.AUDIO_EXT`). -/
def audio_exts : List Str :=
  [".wav".toList, ".mp3".toList, ".aac".toList, ".flac".toList, ".aiff".toList,
   ".m4a".toList, ".ogg".toList, ".wma".toList, ".alac".toList]

/-- The configured image extension set (`config.IMAGE_EXT`). -/
def image_exts : List Str :=
  [".jpg".toList, ".jpeg".toList, ".png".toList, ".tif".toList, ".tiff".toList,
   ".bmp".toList, ".gif".toList, ".svg".toList, ".heic".toList, ".webp".toList,
   ".psd".toList, ".raw".toList, ".exr".toList]

/-- The configured graphic/template extension set (`config.GRAPHIC_EXT`). -/
def graphic_exts : List Str :=
  [".aegraphic".toList, ".mogrt".toList, ".aep".toList, ".aepx".toList]

/-- The four membership checks of the candidate loop, in the source's checking
order video, audio, image, graphic; `none` when the extension is recognized by
no set (in which case the loop advances to the next candidate). -/
def extClassify (ext : Str) : Option ClipType :=
  if video_exts.contains ext then some ClipType.video
  else if audio_exts.contains ext then some ClipType.audio
  else if image_exts.contains ext then some ClipType.image
  else if graphic_exts.contains ext then some ClipType.graphic
  else none

/-- Does `s` start with `pat` (exact characters)? -/
def strStarts : Str → Str → Bool
  | [], _ => true
  | _ :: _, [] => false
  | pc :: pr, c :: cr => pc = c && strStarts pr cr

/-- Does `pat` occur as a contiguous substring of `s` (Python's `in`)? -/
def containsStr (pat : Str) : Str → Bool
  | [] => pat = []
  | c :: r => strStarts pat (c :: r) || containsStr pat r

/-- The keyword list of the name heuristic
(`clip_detector.py` line 89 / `export_timeline_csv.py` line 421). -/
def graphic_keywords : List Str :=
  ["graphic".toList, "title".toList, "caption".toList, "overlay".toList,
   "lowerthird".toList, "grad".toList]

/-- The folder-name list of the source-path heuristic
(`clip_detector.py` line 96 / `export_timeline_csv.py` line 425). -/
def graphic_folders : List Str :=
  ["graphics".toList, "templates".toList, "motion graphics".toList, "mogrt".toList]

/-- The ordered candidate list of `detect_clip_type`: lowercased
`source_filename`, `source_path`, `name`, skipping absent (or empty, hence
falsy) values. -/
def candidatesOf (name source_filename source_path : Option Str) : List Str :=
  (match source_filename with
   | some f => if f = [] then [] else [toLowerStr f]
   | none => []) ++
  (match source_path with
   | some p => if p = [] then [] else [toLowerStr p]
   | none => []) ++
  (match name with
   | some n => if n = [] then [] else [toLowerStr n]
   | none => [])

/-- The extension loop of `detect_clip_type`: first candidate whose extracted
extension is recognized by one of the four sets wins; candidates with no
extension, or an unrecognized one, are passed over. -/
def candLoop : List Str → Option (ClipType × Str)
  | [] => none
  | c :: restc =>
    match find_extension_in_string c with
    | some ext =>
      match extClassify ext with
      | some t => some (t, c)
      | none => candLoop restc
    | none => candLoop restc

/-- Embedding of `detect_clip_type` (`clip_detector.py` lines 48-101 /
`export_timeline_csv.py` lines 391-429): extension-based classification over
the ordered candidates, then the name-keyword heuristic, then the source-path
folder heuristic, else Unknown.  The second component is the debug-provenance
string. -/
def detect_clip_type (name source_filename source_path : Option Str) :
    ClipType × Option Str :=
  match candLoop (candidatesOf name source_filename source_path) with
  | some (t, c) => (t, some ("candidate:".toList ++ c))
  | none =>
    let nameHit : Bool :=
      match name with
      | some n => !(n = []) && graphic_keywords.any (fun k => containsStr k (toLowerStr n))
      | none => false
    if nameHit then (ClipType.graphic, some "heuristic:name".toList)
    else
      let pathHit : Bool :=
        match source_path with
        | some p => !(p = []) && graphic_folders.any (fun k => containsStr k (toLowerStr p))
        | none => false
      if pathHit then (ClipType.graphic, some "heuristic:source_path".toList)
      else (ClipType.unknown, none)

/-- Embedding of `find_extension_in_project` (`clip_detector.py` lines
103-135 / `export_timeline_csv.py` lines 443-459) restricted to what its
callers consume: the document is modelled as the list of its elements' text
contents in document order, and the result is the extracted extension of the
first text that contains the lowercased clip name and a dot.  (The tag name
and raw text also returned by the source are used only for debug output.) -/
def find_extension_in_project (docTexts : List Str) (name : Str) : Option Str :=
  match docTexts with
  | [] => none
  | txt :: rest =>
    if txt = [] then find_extension_in_project rest name
    else
      let ltxt := normWS (toLowerStr txt)
      if containsStr (toLowerStr name) ltxt && containsStr ['.'] ltxt then
        match find_extension_in_string ltxt with
        | some ext => some ext
        | none => find_extension_in_project rest name
      else find_extension_in_project rest name

/-- The Unknown-fallback classification chain applied to a project-search
extension (`export_timeline_csv.py` lines 477-485 and 513-520): note the
checking order here is graphic, audio, image, video. -/
def fallbackClassify (ext : Str) : ClipType :=
  if graphic_exts.contains ext then ClipType.graphic
  else if audio_exts.contains ext then ClipType.audio
  else if image_exts.contains ext then ClipType.image
  else if video_exts.contains ext then ClipType.video
  else ClipType.unknown

/-- The per-group classification of `generate_timeline_data` (lines 472-485
and 506-520): `detect_clip_type` on the group name — the export-version
flattener stores no source path/filename keys on its instances, so
`first.get('source_filename')` and `first.get('source_path')` are always
`None` — with the project-wide extension search as Unknown-fallback. -/
def groupClipType (docTexts : List Str) (grp_name : Str) : ClipType :=
  let ctype := (detect_clip_type (some grp_name) none none).1
  if ctype = ClipType.unknown then
    match find_extension_in_project docTexts grp_name with
    | some ext => fallbackClassify ext
    | none => ClipType.unknown
  else ctype

/-! ## Project graph model and sequence flattener (`export_timeline_csv.py`) -/

/-- A track item as extracted by `track_items_for_trackuid`
(`export_timeline_csv.py` lines 177-267): local timing in raw ticks, an
optional reference to a nested sequence, and an optional display name.
`stop?` models the Python dict's `end` field (`end` is a Lean keyword). -/
structure Item where
  start? : Option Int := none
  stop? : Option Int := none
  duration? : Option Int := none
  seqRef? : Option Str := none
  name? : Option Str := none
deriving DecidableEq, Repr

/-- A sequence element: `names` lists the stripped texts of all name-tagged
descendants in document order (`find_sequence_by_name` matches any of them,
the name index records the first), `uid?` its `ObjectUID`/`ObjectID`
attribute, and `items` its track items in track-then-item processing order
(the result of `track_uids_for_sequence` + `track_items_for_trackuid`). -/
structure SeqElem where
  names : List Str := []
  uid? : Option Str := none
  items : List Item := []
deriving DecidableEq, Repr

/-- The parsed project: its sequence elements in document (`root.iter()`)
order, plus the frame-rate raw value that `find_frame_rate_for_sequence`
extracts (modelled as given, since no claim concerns that scan). -/
structure Proj where
  seqs : List SeqElem
  frameRate? : Option Int := none
deriving DecidableEq, Repr

/-- The name a sequence is indexed under: its first name descendant
(`for c in e.iter(): if name... ; break`). -/
def seqIndexName (s : SeqElem) : Option Str := s.names.head?

/-- Assoc-list insert with Python-dict overwrite semantics (the binding keeps
its insertion position; only lookup behaviour matters here). -/
def insertAssoc : List (Str × α) → Str → α → List (Str × α)
  | [], k, v => [(k, v)]
  | (k2, v2) :: rest, k, v =>
    if k2 = k then (k2, v) :: rest else (k2, v2) :: insertAssoc rest k v

/-- Assoc-list lookup (first binding wins, as in a dict). -/
def lookupAssoc : List (Str × α) → Str → Option α
  | [], _ => none
  | (k2, v) :: rest, k => if k2 = k then some v else lookupAssoc rest k

/-- Embedding of the sequence-name index construction
(`components/xml_parser.py` lines 100-118 and the identical inline loop in
`export_timeline_csv.py` lines 92-100): walk the sequences in document order
and record each one under its first-found name, overwriting prior entries. -/
def buildSequenceNameMap (seqs : List SeqElem) : List (Str × SeqElem) :=
  seqs.foldl
    (fun m s =>
      match seqIndexName s with
      | some k => insertAssoc m k s
      | none => m)
    []

/-- The `ObjectUID`/`ObjectID` maps restricted to sequence elements: built in
document order, later entries overwriting earlier ones, exactly like
`objectid_map`/`objectuid_map` (lines 66-75).  A reference that resolves to a
non-sequence element behaves like an unresolvable one in `flatten_sequence`
(both take the skip branch), so only sequence-valued entries are modelled. -/
def buildUidMap (seqs : List SeqElem) : List (Str × SeqElem) :=
  seqs.foldl
    (fun m s =>
      match s.uid? with
      | some u => insertAssoc m u s
      | none => m)
    []

/-- Embedding of `find_sequence_by_name` (`export_timeline_csv.py` lines
78-84): the first sequence element, in document order, with any name
descendant equal to the requested name. -/
def find_sequence_by_name (p : Proj) (name : Str) : Option SeqElem :=
  p.seqs.find? (fun s => s.names.contains name)

/-- Lookup in the sequence-name index. -/
def seqNameLookup (p : Proj) (nm : Str) : Option SeqElem :=
  lookupAssoc (buildSequenceNameMap p.seqs) nm

/-- Resolution of an explicit sequence reference (ObjectUID or ObjectID). -/
def seqUidLookup (p : Proj) (u : Str) : Option SeqElem :=
  lookupAssoc (buildUidMap p.seqs) u

/-- A flattened instance as appended by the export-version `flatten_sequence`
(line 329): name, absolute raw ticks, and the enclosing nested sequence's
name (the dict carries no source-path keys). -/
structure FlatInst where
  name? : Option Str
  start_raw : Int
  end_raw : Int
  source_sequence : Option Str
deriving DecidableEq, Repr

/-- The leaf clamping step of `flatten_sequence` (lines 320-329): with no
parent bound the interval passes through unchanged; otherwise drop the item
if it starts at or after the bound, truncate its end down to the bound, and
drop it if the clamped interval is empty or inverted. -/
def clampLeaf (abs_start abs_end : Int) : Option Int → Option (Int × Int)
  | none => some (abs_start, abs_end)
  | some b =>
    if abs_start ≥ b then none
    else
      let e := if abs_end > b then b else abs_end
      if e ≤ abs_start then none else some (abs_start, e)

/-- Embedding of the recursive `flatten_sequence` (`export_timeline_csv.py`
lines 270-331), which carries no visited set and no depth bound: the `fuel`
argument pays one unit per entered sequence, and exhausted fuel yields
`none` — so a result of `none` at every fuel models the unbounded recursion
of the source (in CPython, a `RecursionError` crash).  Items are processed in
order; an item missing `start`, or missing both `end` and `duration`, is
skipped; an item whose explicit sequence reference resolves (or, absent such
a reference, whose non-empty display name is a key of the sequence-name
index) is expanded recursively at its absolute offset with its absolute end
as the child bound; any other item is a leaf, clamped by `clampLeaf`. -/
def flatten_sequence (p : Proj) :
    Nat → List Item → Int → Option Int → Option Str → Option (List FlatInst)
  | 0, _, _, _, _ => none
  | _ + 1, [], _, _, _ => some []
  | fuel + 1, itm :: rest, off, bound, src =>
    let tailRes := flatten_sequence p (fuel + 1) rest off bound src
    match itm.start? with
    | none => tailRes
    | some s =>
      let e? : Option Int :=
        match itm.stop? with
        | some e => some e
        | none => itm.duration?.map (fun d => s + d)
      match e? with
      | none => tailRes
      | some e =>
        let abs_start := off + s
        let abs_end := off + e
        match itm.seqRef? with
        | some u =>
          match seqUidLookup p u with
          | some nested =>
            match flatten_sequence p fuel nested.items abs_start (some abs_end)
                (seqIndexName nested), tailRes with
            | some ni, some t => some (ni ++ t)
            | _, _ => none
          | none => tailRes
        | none =>
          let nestedByName : Option SeqElem :=
            match itm.name? with
            | some nm => if nm = [] then none else seqNameLookup p nm
            | none => none
          match nestedByName with
          | some nested =>
            match flatten_sequence p fuel nested.items abs_start (some abs_end)
                itm.name?, tailRes with
            | some ni, some t => some (ni ++ t)
            | _, _ => none
          | none =>
            match clampLeaf abs_start abs_end bound with
            | some se => tailRes.map (fun t => ⟨itm.name?, se.1, se.2, src⟩ :: t)
            | none => tailRes
termination_by fuel items _ _ _ => (fuel, items.length)

/-! ## Conversion, filtering, grouping and the two output tables
(`generate_timeline_data`, `export_timeline_csv.py` lines 336-543) -/

/-- A processed instance (the dicts built at line 355): converted seconds,
their formatted timecodes, and carried-over metadata.  The export-version
flattener stores no `source_path`/`source_filename` keys, so the `.get` calls
at line 355 always yield `None`; those two always-`None` fields are omitted. -/
structure PInst where
  name? : Option Str
  start_sec : ℚ
  end_sec : ℚ
  start_tc : Str
  end_tc : Str
  source_sequence : Option Str
deriving DecidableEq, Repr

/-- Builds the processed dict of line 355. -/
def mkPInst (ins : FlatInst) (s e : ℚ) : PInst :=
  { name? := ins.name?, start_sec := s, end_sec := e,
    start_tc := tc_from_seconds s, end_tc := tc_from_seconds e,
    source_sequence := ins.source_sequence }

/-- Embedding of the conversion-and-cap loop (lines 337-355): convert both
ends with `seconds_aligned_from_raw` (skipping the instance when conversion
yields `None`), drop instances starting at or past the cap, truncate ends to
the cap, and drop degenerate (empty or inverted) intervals. -/
def processInstances :
    List FlatInst → Option Int → ℚ → Option ℚ → List PInst
  | [], _, _, _ => []
  | ins :: rest, frv, fps, cap =>
    let tail := processInstances rest frv fps cap
    match seconds_aligned_from_raw (some ins.start_raw) frv (some fps),
          seconds_aligned_from_raw (some ins.end_raw) frv (some fps) with
    | some s_sec, some e_sec0 =>
      match cap with
      | some c =>
        if s_sec ≥ c then tail
        else
          let e_sec := if e_sec0 > c then c else e_sec0
          if e_sec ≤ s_sec then tail else mkPInst ins s_sec e_sec :: tail
      | none =>
        if e_sec0 ≤ s_sec then tail else mkPInst ins s_sec e_sec0 :: tail
    | _, _ => tail

/-- Embedding of the unnamed/duplicate filter (lines 360-378): drop instances
with no name, an empty name, or a reserved `<unnamed-` placeholder name, and
drop later instances repeating an already-seen `(name, startTC, endTC)`
combination (`seen` accumulates the keys already emitted). -/
def filterDedup (seen : List (Str × Str × Str)) : List PInst → List PInst
  | [] => []
  | q :: rest =>
    match q.name? with
    | none => filterDedup seen rest
    | some nm =>
      if nm = [] then filterDedup seen rest
      else if strStarts "<unnamed-".toList nm then filterDedup seen rest
      else if seen.contains (nm, q.start_tc, q.end_tc) then filterDedup seen rest
      else q :: filterDedup ((nm, q.start_tc, q.end_tc) :: seen) rest

/-- One step of the name-grouping loop (line 388,
`groups.setdefault(key, []).append(p)` over an insertion-ordered dict). -/
def addToGroup : List (Str × List PInst) → Str → PInst → List (Str × List PInst)
  | [], k, q => [(k, [q])]
  | (n, l) :: rest, k, q =>
    if n = k then (n, l ++ [q]) :: rest else (n, l) :: addToGroup rest k q

/-- Embedding of the grouping loop (lines 382-388); the `is_nested_container`
guard at line 385 never fires because the export-version instances carry no
such key.  Filtered instances always have a non-empty name, so the `getD`
default is never used. -/
def buildGroups (ps : List PInst) : List (Str × List PInst) :=
  ps.foldl (fun gs q => addToGroup gs (q.name?.getD []) q) []

/-- Stable insertion into a list sorted by the key `f`, placing the new
element before the first strictly-later-keyed element it is ≤-equal to. -/
def insertBy (f : α → ℚ) (x : α) : List α → List α
  | [] => [x]
  | y :: ys => if f x ≤ f y then x :: y :: ys else y :: insertBy f x ys

/-- Stable sort by the rational key `f`; extensionally equal to Python's
stable `sorted(key=...)`. -/
def sortBy (f : α → ℚ) : List α → List α
  | [] => []
  | x :: xs => insertBy f x (sortBy f xs)

/-- Each group with its instances sorted by start seconds
(`insts_sorted = sorted(instances, key=lambda x: x['start_sec'])`,
lines 469 and 501). -/
def groupedSorted (groups : List (Str × List PInst)) : List (Str × List PInst) :=
  groups.map (fun g => (g.1, sortBy (fun i => i.start_sec) g.2))

/-- A row of the grouped view (built at line 529).  `instances` holds the
`(startTC, endTC)` pairs whose `"start-end"` strings the CSV writer joins
with `" | "`. -/
structure GroupedRow where
  name : Str
  instances_count : Nat
  instances : List (Str × Str)
  earliest_start : ℚ
  clip_type : ClipType
deriving DecidableEq, Repr

/-- Builds one grouped row from a sorted group (lines 500-529).  Groups are
never empty, so `insts_sorted[0]` exists; the `getD 0` default models that
partial indexing without changing any reachable value. -/
def mkGroupedRow (docTexts : List Str) (g : Str × List PInst) : GroupedRow :=
  { name := g.1, instances_count := g.2.length,
    instances := g.2.map (fun i => (i.start_tc, i.end_tc)),
    earliest_start := ((g.2.head?).map (fun i => i.start_sec)).getD 0,
    clip_type := groupClipType docTexts g.1 }

/-- The grouped view: one row per group, sorted by earliest start
(lines 499-536). -/
def groupedRowsOf (docTexts : List Str) (groups : List (Str × List PInst)) :
    List GroupedRow :=
  sortBy (fun r => r.earliest_start) ((groupedSorted groups).map (mkGroupedRow docTexts))

/-- A per-instance output record (built at line 488; the CSV row at line 495
projects out `[name, startTC, endTC, clipType, sourceSequence]`). -/
structure OutInst where
  name : Str
  start_sec : ℚ
  end_sec : ℚ
  start_tc : Str
  end_tc : Str
  clip_type : ClipType
  source_sequence : Option Str
deriving DecidableEq, Repr

/-- The per-instance view (lines 466-491): every group's sorted instances
tagged with the group's resolved clip type, then globally sorted by start
seconds. -/
def perInstancesOf (docTexts : List Str) (groups : List (Str × List PInst)) :
    List OutInst :=
  sortBy (fun i => i.start_sec)
    ((groupedSorted groups).flatMap (fun g =>
      let ctype := groupClipType docTexts g.1
      g.2.map (fun i =>
        { name := g.1, start_sec := i.start_sec, end_sec := i.end_sec,
          start_tc := i.start_tc, end_tc := i.end_tc, clip_type := ctype,
          source_sequence := i.source_sequence })))

/-- The error raised by `generate_timeline_data` before any flattening:
`ValueError(f'Main sequence not found: ...')` at line 89. -/
inductive GenErr where
  | mainSequenceNotFound (name : Str)
deriving DecidableEq, Repr

/-- Embedding of `generate_timeline_data` (`export_timeline_csv.py` lines
42-543).  The outer `Option` is the flattening fuel monad (`none` = the
unbounded recursion of the source never returned); the `Except` layer models
the `ValueError` raised when no sequence matches the requested name.  On
success the source returns exactly the pair `(grouped_data, per_instance_data)`;
the returned tables model those dicts' `rows` content (headers are the fixed
literals at lines 494 and 534, and the CSV writer is presentation only). -/
def generate_timeline_data (p : Proj) (docTexts : List Str) (main_seq_name : Str)
    (fps_override : ℚ) (cap : Option ℚ) (fuel : Nat) :
    Option (Except GenErr (List GroupedRow × List OutInst)) :=
  match find_sequence_by_name p main_seq_name with
  | none => some (Except.error (GenErr.mainSequenceNotFound main_seq_name))
  | some main =>
    (flatten_sequence p fuel main.items 0 none none).map (fun all =>
      let processed := processInstances all p.frameRate? fps_override cap
      let filtered := filterDedup [] processed
      let groups := buildGroups filtered
      Except.ok (groupedRowsOf docTexts groups, perInstancesOf docTexts groups))

/-! ## Concrete sample projects used by witnesses and counterexamples -/

/-- A self-referential composition: sequence "X" contains a track item whose
display name is "X" (the spec's cyclic scenario). -/
def cyclicSeq : SeqElem :=
  { names := ["X".toList],
    items := [{ start? := some 0, stop? := some 100, name? := some "X".toList }] }

/-- The project holding the cyclic composition. -/
def cyclicProj : Proj := { seqs := [cyclicSeq], frameRate? := some 1 }

/-- Nested composition "Inner" holding clip "A" at local ticks `[0, 100)`. -/
def innerSeq : SeqElem :=
  { names := ["Inner".toList],
    items := [{ start? := some 0, stop? := some 100, name? := some "A".toList }] }

/-- Main composition placing "Inner" at ticks `[500, 600)`. -/
def outerSeqFull : SeqElem :=
  { names := ["Main".toList],
    items := [{ start? := some 500, stop? := some 600, name? := some "Inner".toList }] }

/-- Main composition allocating "Inner" only ticks `[500, 550)`. -/
def outerSeqClamped : SeqElem :=
  { names := ["Main".toList],
    items := [{ start? := some 500, stop? := some 550, name? := some "Inner".toList }] }

/-- Project for the un-clamped nesting scenario. -/
def nestedProjFull : Proj := { seqs := [outerSeqFull, innerSeq], frameRate? := some 1 }

/-- Project for the clamped nesting scenario. -/
def nestedProjClamped : Proj := { seqs := [outerSeqClamped, innerSeq], frameRate? := some 1 }

/-- A project whose main sequence holds two overlapping placements of the
same clip "A": ticks `[0, 10)` and `[5, 15)` (with ticks-per-frame 1 and fps
1 these are also the converted seconds). -/
def overlapSeq : SeqElem :=
  { names := ["Main".toList],
    items := [{ start? := some 0, stop? := some 10, name? := some "A".toList },
              { start? := some 5, stop? := some 15, name? := some "A".toList }] }

/-- The overlapping-instances project. -/
def overlapProj : Proj := { seqs := [overlapSeq], frameRate? := some 1 }

/-- Proof helper: the value accumulated by parsing the digits of `n` after an
accumulator `a` (same recursion shape as the digit printer). -/
def shiftVal (a n : Nat) : Nat :=
  if n < 10 then a * 10 + n else shiftVal a (n / 10) * 10 + n % 10
termination_by n
decreasing_by exact Nat.div_lt_self (by omega) (by omega)

/-! ## Lemmas: decimal printing and parsing round-trip -/

theorem digit?_digitChar (n : Nat) (h : n < 10) : digit? (digitChar n) = some n := by
  interval_cases n <;> decide

theorem digitChar_isDigit (n : Nat) (h : n < 10) : isDigitCh (digitChar n) = true := by
  interval_cases n <;> decide

theorem shiftVal_zero (n : Nat) : shiftVal 0 n = n := by
  induction n using Nat.strong_induction_on with
  | _ n ih =>
    rw [shiftVal]
    by_cases h : n < 10
    · simp [h]
    · have hd : n / 10 < n := Nat.div_lt_self (by omega) (by omega)
      simp only [h, if_false]
      rw [ih _ hd]
      omega

theorem parse_natDigitsGo (fuel : Nat) :
    ∀ n acc a, n ≤ fuel →
      parseDigitsCore a (natDigitsGo fuel n acc) = parseDigitsCore (shiftVal a n) acc := by
  induction fuel with
  | zero =>
    intro n acc a hn
    have hn0 : n = 0 := by omega
    subst hn0
    rw [natDigitsGo, shiftVal]
    simp [parseDigitsCore, digit?_digitChar 0 (by omega)]
  | succ fuel ih =>
    intro n acc a hn
    rw [natDigitsGo]
    by_cases h : n < 10
    · rw [shiftVal]
      simp [h, parseDigitsCore, digit?_digitChar n h]
    · have h10 : 10 ≤ n := by omega
      simp only [h, if_false]
      rw [ih (n / 10) _ a (by omega)]
      rw [parseDigitsCore, digit?_digitChar (n % 10) (by omega)]
      conv_rhs => rw [shiftVal]
      simp [h]

theorem natDigitsGo_all_digits (fuel : Nat) :
    ∀ n acc, n ≤ fuel → (∀ c ∈ acc, isDigitCh c = true) →
      ∀ c ∈ natDigitsGo fuel n acc, isDigitCh c = true := by
  induction fuel with
  | zero =>
    intro n acc hn hacc c hc
    have hn0 : n = 0 := by omega
    subst hn0
    rw [natDigitsGo] at hc
    rcases List.mem_cons.mp hc with hc | hc
    · subst hc; exact digitChar_isDigit 0 (by omega)
    · exact hacc _ hc
  | succ fuel ih =>
    intro n acc hn hacc c hc
    rw [natDigitsGo] at hc
    by_cases h : n < 10
    · simp only [h, if_true] at hc
      rcases List.mem_cons.mp hc with hc | hc
      · subst hc; exact digitChar_isDigit n h
      · exact hacc _ hc
    · simp only [h, if_false] at hc
      refine ih (n / 10) _ (by omega) ?_ c hc
      intro d hd
      rcases List.mem_cons.mp hd with hd | hd
      · subst hd; exact digitChar_isDigit (n % 10) (by omega)
      · exact hacc _ hd

theorem natDigitsGo_ne_nil (fuel : Nat) :
    ∀ n acc, natDigitsGo fuel n acc ≠ [] := by
  induction fuel with
  | zero => intro n acc; rw [natDigitsGo]; simp
  | succ fuel ih =>
    intro n acc
    rw [natDigitsGo]
    by_cases h : n < 10
    · simp [h]
    · simp only [h, if_false]
      exact ih _ _

theorem natDigits_all_digits (n : Nat) : ∀ c ∈ natDigits n, isDigitCh c = true :=
  natDigitsGo_all_digits n n [] le_rfl (by intro c hc; cases hc)

theorem natDigits_ne_nil (n : Nat) : natDigits n ≠ [] := natDigitsGo_ne_nil n n []

theorem parseDigits_natDigits (n : Nat) : parseDigits (natDigits n) = some n := by
  have h1 : parseDigitsCore 0 (natDigits n) = some n := by
    have := parse_natDigitsGo n n [] 0 le_rfl
    rw [natDigits, this, shiftVal_zero, parseDigitsCore]
  obtain ⟨c, t, hct⟩ : ∃ c t, natDigits n = c :: t := by
    cases hnd : natDigits n with
    | nil => exact absurd hnd (natDigits_ne_nil n)
    | cons c t => exact ⟨c, t, rfl⟩
  rw [hct] at h1 ⊢
  exact h1

theorem pad2_all_digits (n : Nat) : ∀ c ∈ pad2 n, isDigitCh c = true := by
  intro c hc
  rw [pad2] at hc
  by_cases h : (natDigits n).length < 2
  · simp only [h, if_true] at hc
    rcases List.mem_cons.mp hc with hc | hc
    · subst hc; decide
    · exact natDigits_all_digits n _ hc
  · simp only [h, if_false] at hc
    exact natDigits_all_digits n _ hc

theorem pad2_ne_nil (n : Nat) : pad2 n ≠ [] := by
  rw [pad2]
  by_cases h : (natDigits n).length < 2
  · simp [h]
  · simp only [h, if_false]
    exact natDigits_ne_nil n

theorem parseDigits_pad2 (n : Nat) : parseDigits (pad2 n) = some n := by
  rw [pad2]
  by_cases h : (natDigits n).length < 2
  · simp only [h, if_true]
    have h1 := parseDigits_natDigits n
    obtain ⟨c, t, hct⟩ : ∃ c t, natDigits n = c :: t := by
      cases hnd : natDigits n with
      | nil => exact absurd hnd (natDigits_ne_nil n)
      | cons c t => exact ⟨c, t, rfl⟩
    have hz : digit? '0' = some 0 := by decide
    rw [hct] at h1 ⊢
    rw [parseDigits]
    rw [parseDigitsCore, hz]
    rw [parseDigits] at h1
    simpa using h1
  · simp only [h, if_false]
    exact parseDigits_natDigits n

theorem dropWhile_eq_self_of_none {p : Char → Bool} {s : Str}
    (h : ∀ c ∈ s, p c = false) : s.dropWhile p = s := by
  cases s with
  | nil => rfl
  | cons c r =>
    rw [List.dropWhile_cons]
    simp [h c (List.mem_cons_self c r)]

theorem stripWS_all_digits {s : Str} (h : ∀ c ∈ s, isDigitCh c = true) :
    stripWS s = s := by
  have hf : ∀ c ∈ s, isSpaceCh c = false := by
    intro c hc
    have hd := h c hc
    simp only [isDigitCh, Bool.and_eq_true, decide_eq_true_eq] at hd
    obtain ⟨c1, c2⟩ := hd
    simp only [isSpaceCh, Bool.or_eq_false_iff, decide_eq_false_iff_not]
    refine ⟨⟨⟨⟨⟨?_, ?_⟩, ?_⟩, ?_⟩, ?_⟩, ?_⟩ <;>
      · intro hcc
        subst hcc
        simp at c1 c2
  rw [stripWS, dropWhile_eq_self_of_none hf, dropWhile_eq_self_of_none, List.reverse_reverse]
  intro c hc
  exact hf c (List.mem_reverse.mp hc)

theorem pyInt?_pad2 (n : Nat) : pyInt? (pad2 n) = some (n : Int) := by
  have hs : stripWS (pad2 n) = pad2 n := stripWS_all_digits (pad2_all_digits n)
  obtain ⟨c, t, hct⟩ : ∃ c t, pad2 n = c :: t := by
    cases hp : pad2 n with
    | nil => exact absurd hp (pad2_ne_nil n)
    | cons c t => exact ⟨c, t, rfl⟩
  have hcd : isDigitCh c = true := pad2_all_digits n c (hct ▸ List.mem_cons_self c t)
  have hcm : c ≠ '-' := by
    intro hcc; subst hcc; revert hcd; decide
  have hcp : c ≠ '+' := by
    intro hcc; subst hcc; revert hcd; decide
  have hpd := parseDigits_pad2 n
  rw [pyInt?, hs, hct]
  rw [hct] at hpd
  split
  · next heq => exact absurd (List.cons.inj heq).1 hcm
  · next heq => exact absurd (List.cons.inj heq).1 hcp
  · rw [hpd]; rfl

theorem splitColon_ne_nil (s : Str) : splitColon s ≠ [] := by
  cases s with
  | nil => simp [splitColon]
  | cons c cs =>
    rw [splitColon]
    by_cases h : c = ':'
    · simp [h]
    · simp only [h, if_false]
      cases splitColon cs <;> simp

theorem splitColon_append {a : Str} (r : Str) (h : ∀ c ∈ a, c ≠ ':') :
    splitColon (a ++ ':' :: r) = a :: splitColon r := by
  induction a with
  | nil => simp [splitColon]
  | cons x xs ih =>
    have hx : x ≠ ':' := h x (List.mem_cons_self x xs)
    rw [List.cons_append, splitColon]
    simp only [hx, if_false]
    rw [ih (fun c hc => h c (List.mem_cons_of_mem x hc))]

theorem digits_ne_colon {s : Str} (h : ∀ c ∈ s, isDigitCh c = true) :
    ∀ c ∈ s, c ≠ ':' := by
  intro c hc hcc
  subst hcc
  have := h _ hc
  revert this
  decide

theorem pyRound_intCast (n : Int) : pyRound (n : ℚ) = n := by
  rw [pyRound]
  norm_num

theorem c8_roundtrip_aux (s_abs : Nat) :
    tc_to_seconds (pad2 (s_abs / 3600) ++ ':' :: (pad2 (s_abs % 3600 / 60) ++
      ':' :: pad2 (s_abs % 60))) = (s_abs : Int) := by
  have hhh := pad2_all_digits (s_abs / 3600)
  have hmm := pad2_all_digits (s_abs % 3600 / 60)
  have hss := pad2_all_digits (s_abs % 60)
  have hsplit : splitColon (pad2 (s_abs / 3600) ++ ':' :: (pad2 (s_abs % 3600 / 60) ++
      ':' :: pad2 (s_abs % 60))) =
      [pad2 (s_abs / 3600), pad2 (s_abs % 3600 / 60), pad2 (s_abs % 60)] := by
    rw [splitColon_append _ (digits_ne_colon hhh),
      splitColon_append _ (digits_ne_colon hmm)]
    have hnc : ∀ c ∈ pad2 (s_abs % 60), c ≠ ':' := digits_ne_colon hss
    have : ∀ t : Str, (∀ c ∈ t, c ≠ ':') → splitColon t = [t] := by
      intro t
      induction t with
      | nil => intro _; rfl
      | cons x xs ih =>
        intro hall
        rw [splitColon]
        have hx : x ≠ ':' := hall x (List.mem_cons_self x xs)
        simp only [hx, if_false]
        rw [ih (fun c hc => hall c (List.mem_cons_of_mem x hc))]
    rw [this _ hnc]
  have hne : pad2 (s_abs / 3600) ++ ':' :: (pad2 (s_abs % 3600 / 60) ++
      ':' :: pad2 (s_abs % 60)) ≠ [] := by
    intro hcc
    exact pad2_ne_nil _ (List.append_eq_nil.mp hcc).1
  rw [tc_to_seconds]
  simp only [hne, if_false]
  rw [hsplit]
  simp only [pyInt?_pad2]
  push_cast
  omega

/-- C8: for every non-negative integer number of seconds `s`, converting `s`
to a timecode string with `tc_from_seconds` and parsing it back with
`tc_to_seconds` is the identity. -/
theorem c8_timecode_roundtrip (s : ℕ) :
    tc_to_seconds (tc_from_seconds (s : ℚ)) = (s : ℤ) := by
  have hr : pyRound ((s : ℕ) : ℚ) = (s : ℤ) := by
    have h := pyRound_intCast (s : ℤ)
    rw [Int.cast_natCast] at h
    exact h
  have hnn : ¬ ((s : ℤ) < 0) := by omega
  have habs : (s : ℤ).natAbs = s := Int.natAbs_ofNat s
  simp only [tc_from_seconds, hr, hnn, if_false, habs, List.nil_append,
    List.append_assoc, List.cons_append]
  exact c8_roundtrip_aux s

/-- C10: the timecode round-trip fails for negative values: for `s = -61`,
`tc_from_seconds` formats `"-00:01:01"`, and `tc_to_seconds` applies the minus
sign only to the (zero) hours field, so the round-trip returns `61 ≠ -61`. -/
theorem c10_negative_roundtrip_fails :
    tc_to_seconds (tc_from_seconds ((-61 : Int) : ℚ)) = 61 ∧
      tc_to_seconds (tc_from_seconds ((-61 : Int) : ℚ)) ≠ (-61 : Int) := by
  have hr : pyRound ((-61 : Int) : ℚ) = (-61 : Int) := pyRound_intCast _
  have h1 : tc_to_seconds (tc_from_seconds ((-61 : Int) : ℚ)) = 61 := by
    simp only [tc_from_seconds, hr]
    decide
  exact ⟨h1, by rw [h1]; decide⟩

/-! ## Lemmas: source resolver (C4) -/

theorem resolveFrom_findSome? (l : List (Str → Option SourceMatch)) (nm : Str) :
    resolveFrom l nm = (l.findSome? (fun f => f nm)).getD default_match := by
  induction l with
  | nil => rfl
  | cons f rest ih =>
    rw [resolveFrom, List.findSome?_cons]
    cases f nm with
    | some m => rfl
    | none => exact ih

/-- C4 (amended): resolving `"imago12345_Sunset.mp4"` yields provider
`"Imago"`, media id `"12345"` and title `"Sunset"` (the `[^.]+` title group
stops at the dot, so the extension is not part of the title); for any
non-empty name the first registry pattern that matches determines the result,
and when no pattern matches the default Unknown match (media id and title
absent) is returned. -/
theorem c4_resolver_first_match :
    resolve "imago12345_Sunset.mp4".toList =
      { source := "Imago".toList, media_id := some "12345".toList,
        title := some "Sunset".toList } ∧
    (∀ nm : Str, nm ≠ [] →
      resolve nm = (resolveRegistry.findSome? (fun f => f nm)).getD default_match) ∧
    (∀ nm : Str, (∀ f ∈ resolveRegistry, f nm = none) →
      resolve nm = default_match) := by
  refine ⟨by decide, ?_, ?_⟩
  · intro nm hne
    rw [resolve]
    simp only [hne, if_false]
    exact resolveFrom_findSome? _ nm
  · intro nm hall
    rw [resolve]
    by_cases hne : nm = []
    · simp [hne]
    · simp only [hne, if_false]
      rw [resolveFrom_findSome? _ nm]
      rw [List.findSome?_eq_none_iff.mpr hall]
      rfl

/-- C4 witness: the amended theorem applied at the concrete inputs
`"imago12345_Sunset.mp4"` and the match-free name `"zzz"`. -/
theorem c4_resolver_first_match_witness :
    resolve "zzz".toList =
      (resolveRegistry.findSome? (fun f => f "zzz".toList)).getD default_match ∧
    resolve "zzz".toList = default_match :=
  ⟨c4_resolver_first_match.2.1 "zzz".toList (by decide),
   c4_resolver_first_match.2.2 "zzz".toList (by
    intro f hf
    simp only [resolveRegistry, List.mem_cons, List.not_mem_nil, or_false] at hf
    rcases hf with hf | hf | hf <;> subst hf <;> decide)⟩

/-- C4 counterexample: the resolver's title for `"imago12345_Sunset.mp4"` is
not `"Sunset.mp4"` (it is `"Sunset"`). -/
theorem c4_title_counterexample :
    (resolve "imago12345_Sunset.mp4".toList).title ≠ some "Sunset.mp4".toList := by
  decide

/-! ## Lemmas: clip classifier (C7) -/

theorem candLoop_of_findSome? (cs : List Str) (t : ClipType)
    (h : cs.findSome? (fun c => (find_extension_in_string c).bind extClassify) = some t) :
    ∃ c, candLoop cs = some (t, c) := by
  induction cs with
  | nil => simp at h
  | cons c rest ih =>
    rw [List.findSome?_cons] at h
    rw [candLoop]
    cases hfe : find_extension_in_string c with
    | none =>
      rw [hfe] at h
      simp only [Option.none_bind] at h
      dsimp only
      exact ih h
    | some ext =>
      rw [hfe] at h
      simp only [Option.some_bind] at h
      dsimp only
      cases hcl : extClassify ext with
      | none =>
        rw [hcl] at h
        dsimp only
        exact ih h
      | some t2 =>
        rw [hcl] at h
        dsimp only
        obtain rfl : t2 = t := by cases h; rfl
        exact ⟨c, rfl⟩

/-- C7: whenever some candidate string (lowercased source filename, source
path, or clip name, in that order) yields an extension recognized by one of
the configured sets, `detect_clip_type` returns that extension-based class —
the keyword heuristics are never consulted, regardless of keyword presence. -/
theorem c7_extension_outranks_heuristics
    (name source_filename source_path : Option Str) (t : ClipType)
    (h : (candidatesOf name source_filename source_path).findSome?
      (fun c => (find_extension_in_string c).bind extClassify) = some t) :
    (detect_clip_type name source_filename source_path).1 = t := by
  obtain ⟨c, hc⟩ := candLoop_of_findSome? _ t h
  unfold detect_clip_type
  rw [hc]

/-- C7 witness: `detect_clip_type("graphic_title.mp4", "graphic_title.mp4",
None)` classifies as Video from the `.mp4` extension even though the name
contains the Graphic keyword `"title"`. -/
theorem c7_extension_outranks_heuristics_witness :
    (detect_clip_type (some "graphic_title.mp4".toList)
      (some "graphic_title.mp4".toList) none).1 = ClipType.video :=
  c7_extension_outranks_heuristics (some "graphic_title.mp4".toList)
    (some "graphic_title.mp4".toList) none ClipType.video (by decide)

/-! ## Lemmas: flattener clamping and the cyclic hazard (C5, C1) -/

/-- C5: a leaf item at local ticks `[s, e)` under parent offset `o` and
allocated bound `b` is emitted with absolute interval `[o+s, min (o+e) b)`,
and is dropped exactly when that interval is empty or inverted — in
particular when `o+s ≥ b`.  The two flattening scenarios instantiate this:
clip "A" at local `[0, 100)` inside "Inner" placed at `[500, 600)` flattens
to `[500, 600)`, and is clamped to `[500, 550)` when "Inner" is only
allocated `[500, 550)`. -/
theorem c5_clamp_leaf :
    (∀ o s e b : Int, clampLeaf (o + s) (o + e) (some b) =
        if min (o + e) b ≤ o + s then none else some (o + s, min (o + e) b)) ∧
    flatten_sequence nestedProjFull 9 outerSeqFull.items 0 none none =
      some [{ name? := some "A".toList, start_raw := 500, end_raw := 600,
              source_sequence := some "Inner".toList }] ∧
    flatten_sequence nestedProjClamped 9 outerSeqClamped.items 0 none none =
      some [{ name? := some "A".toList, start_raw := 500, end_raw := 550,
              source_sequence := some "Inner".toList }] := by
  refine ⟨?_, ?_, ?_⟩
  · intro o s e b
    rw [clampLeaf]
    simp only [min_def]
    split_ifs <;> first | rfl | (exfalso; omega)
  · simp only [nestedProjFull, outerSeqFull, innerSeq]
    simp +decide [flatten_sequence, seqNameLookup, buildSequenceNameMap, insertAssoc,
      lookupAssoc, seqIndexName, clampLeaf]
  · simp only [nestedProjClamped, outerSeqClamped, innerSeq]
    simp +decide [flatten_sequence, seqNameLookup, buildSequenceNameMap, insertAssoc,
      lookupAssoc, seqIndexName, clampLeaf]

theorem cyclic_flatten_none :
    ∀ fuel : Nat, ∀ off : Int, ∀ bound : Option Int, ∀ src : Option Str,
      flatten_sequence cyclicProj fuel cyclicSeq.items off bound src = none := by
  intro fuel
  induction fuel with
  | zero => intro off bound src; rw [flatten_sequence]
  | succ fuel ih =>
    intro off bound src
    show flatten_sequence cyclicProj (fuel + 1)
      ({ start? := some 0, stop? := some 100, name? := some "X".toList } :: []) off bound src = none
    rw [flatten_sequence]
    have hlook : (if "X".toList = ([] : Str) then (none : Option SeqElem)
        else seqNameLookup cyclicProj "X".toList) = some cyclicSeq := by decide
    simp only [hlook]
    rw [ih]

/-- C1: the flattener has no cycle guard — on the project whose composition
"X" contains a track item named "X", `flatten_sequence` fails to terminate
(it returns `none` at every fuel, modelling the unbounded recursion /
`RecursionError` of the source), and consequently `generate_timeline_data`
never returns; no `CyclicCompositionError` (no such exception exists in the
repository) is raised. -/
theorem c1_cyclic_no_guard :
    (∀ fuel : Nat, ∀ off : Int, ∀ bound : Option Int, ∀ src : Option Str,
      flatten_sequence cyclicProj fuel cyclicSeq.items off bound src = none) ∧
    (∀ fuel : Nat,
      generate_timeline_data cyclicProj [] "X".toList 1 none fuel = none) := by
  refine ⟨cyclic_flatten_none, ?_⟩
  intro fuel
  rw [generate_timeline_data]
  have hfind : find_sequence_by_name cyclicProj "X".toList = some cyclicSeq := by decide
  rw [hfind]
  show (flatten_sequence cyclicProj fuel cyclicSeq.items 0 none none).map _ = none
  rw [cyclic_flatten_none fuel 0 none none]
  rfl

/-! ## Lemmas: the sequence-name index (C9) -/

theorem lookupAssoc_insertAssoc (m : List (Str × α)) (k : Str) (v : α) (t : Str) :
    lookupAssoc (insertAssoc m k v) t = if k = t then some v else lookupAssoc m t := by
  induction m with
  | nil => simp [insertAssoc, lookupAssoc]
  | cons hd rest ih =>
    obtain ⟨hk, hv⟩ := hd
    rw [insertAssoc]
    by_cases h1 : hk = k
    · subst h1
      rw [if_pos rfl, lookupAssoc]
      by_cases h2 : hk = t
      · rw [if_pos h2, if_pos h2]
      · rw [if_neg h2, if_neg h2, lookupAssoc, if_neg h2]
    · rw [if_neg h1, lookupAssoc]
      by_cases h2 : hk = t
      · rw [if_pos h2, if_neg (fun hc => h1 (h2.trans hc.symm)), lookupAssoc, if_pos h2]
      · rw [if_neg h2, ih]
        by_cases h3 : k = t
        · rw [if_pos h3, if_pos h3]
        · rw [if_neg h3, if_neg h3, lookupAssoc, if_neg h2]

theorem buildSequenceNameMap_foldl (seqs : List SeqElem) :
    ∀ (acc : List (Str × SeqElem)) (nm : Str),
      lookupAssoc
        (seqs.foldl
          (fun m s =>
            match seqIndexName s with
            | some k => insertAssoc m k s
            | none => m)
          acc) nm =
      ((seqs.reverse.find? (fun s => decide (seqIndexName s = some nm))).map some).getD
        (lookupAssoc acc nm) := by
  induction seqs with
  | nil => intro acc nm; rfl
  | cons s rest ih =>
    intro acc nm
    rw [List.foldl_cons, ih, List.reverse_cons, List.find?_append]
    cases hfind : rest.reverse.find? (fun t => decide (seqIndexName t = some nm)) with
    | some e => rfl
    | none =>
      simp only [Option.map_none', Option.getD_none, Option.none_or]
      cases hidx : seqIndexName s with
      | none =>
        have hp : decide (seqIndexName s = some nm) = false := by simp [hidx]
        simp only [List.find?, hp]
        rfl
      | some k =>
        dsimp only
        by_cases hk : k = nm
        · subst hk
          have hp : decide (seqIndexName s = some k) = true := by simp [hidx]
          simp only [List.find?, hp]
          rw [lookupAssoc_insertAssoc, if_pos rfl]
          rfl
        · have hp : decide (seqIndexName s = some nm) = false := by simp [hidx, hk]
          simp only [List.find?, hp]
          rw [lookupAssoc_insertAssoc, if_neg hk]
          rfl

/-- C9: after indexing, looking up a name in the sequence-name mapping yields
exactly the last composition in document order whose first-found name is that
name (`reverse.find?` returns the last bearer): when several compositions
bear the same name only the most-recently-indexed one is retained, and a name
borne by a single composition maps to that composition. -/
theorem c9_name_index_last_wins (seqs : List SeqElem) (nm : Str) :
    lookupAssoc (buildSequenceNameMap seqs) nm =
      seqs.reverse.find? (fun s => decide (seqIndexName s = some nm)) := by
  rw [buildSequenceNameMap, buildSequenceNameMap_foldl]
  cases seqs.reverse.find? (fun s => decide (seqIndexName s = some nm)) with
  | some e => rfl
  | none => rfl

/-! ## Lemmas: the conversion pipeline (C2, C3, C6) -/

theorem seconds_aligned_one (r : Int) :
    seconds_aligned_from_raw (some r) (some 1) (some 1) = some (r : ℚ) := by
  rw [seconds_aligned_from_raw]
  norm_num [pyRound_intCast]

theorem tc_from_seconds_intCast (n : Int) :
    tc_from_seconds (n : ℚ) =
      (if n < 0 then ['-'] else []) ++ pad2 (n.natAbs / 3600) ++
        ':' :: pad2 (n.natAbs % 3600 / 60) ++ ':' :: pad2 (n.natAbs % 60) := by
  simp only [tc_from_seconds, pyRound_intCast]

theorem mem_insertBy (f : α → ℚ) (x a : α) (l : List α) :
    a ∈ insertBy f x l ↔ a = x ∨ a ∈ l := by
  induction l with
  | nil => simp [insertBy]
  | cons y ys ih =>
    rw [insertBy]
    by_cases hxy : f x ≤ f y
    · rw [if_pos hxy]
      simp
    · rw [if_neg hxy]
      simp only [List.mem_cons, ih]
      tauto

theorem mem_sortBy (f : α → ℚ) (a : α) (l : List α) :
    a ∈ sortBy f l ↔ a ∈ l := by
  induction l with
  | nil => simp [sortBy]
  | cons y ys ih =>
    rw [sortBy, mem_insertBy]
    simp [ih]

theorem chain'_insertBy (f : α → ℚ) (x : α) (l : List α)
    (h : List.Chain' (fun a b => f a ≤ f b) l) :
    List.Chain' (fun a b => f a ≤ f b) (insertBy f x l) := by
  induction l with
  | nil => simp [insertBy]
  | cons y ys ih =>
    rw [insertBy]
    by_cases hxy : f x ≤ f y
    · rw [if_pos hxy]
      exact h.cons hxy
    · rw [if_neg hxy]
      have hyx : f y ≤ f x := le_of_not_le hxy
      have hins := ih h.tail
      cases ys with
      | nil =>
        rw [insertBy]
        exact List.chain'_cons.mpr ⟨hyx, List.chain'_singleton x⟩
      | cons z zs =>
        rw [insertBy] at hins ⊢
        by_cases hxz : f x ≤ f z
        · rw [if_pos hxz] at hins ⊢
          exact hins.cons hyx
        · rw [if_neg hxz] at hins ⊢
          exact hins.cons (List.chain'_cons.mp h).1

theorem chain'_sortBy (f : α → ℚ) (l : List α) :
    List.Chain' (fun a b => f a ≤ f b) (sortBy f l) := by
  induction l with
  | nil => simp [sortBy]
  | cons y ys ih => exact chain'_insertBy f y _ ih

theorem processInstances_prop (insts : List FlatInst) (frv : Option Int)
    (fps : ℚ) (cap : Option ℚ) :
    ∀ x ∈ processInstances insts frv fps cap,
      x.start_sec < x.end_sec ∧ ∀ c, cap = some c → x.end_sec ≤ c ∧ x.start_sec < c := by
  induction insts with
  | nil => intro x hx; rw [processInstances] at hx; cases hx
  | cons ins rest ih =>
    intro x hx
    rw [processInstances] at hx
    cases hs : seconds_aligned_from_raw (some ins.start_raw) frv (some fps) with
    | none =>
      rw [hs] at hx
      cases he : seconds_aligned_from_raw (some ins.end_raw) frv (some fps) with
      | none => rw [he] at hx; exact ih x hx
      | some e0 => rw [he] at hx; exact ih x hx
    | some s_sec =>
      rw [hs] at hx
      cases he : seconds_aligned_from_raw (some ins.end_raw) frv (some fps) with
      | none => rw [he] at hx; exact ih x hx
      | some e0 =>
        rw [he] at hx
        cases cap with
        | none =>
          dsimp only at hx
          by_cases hdeg : e0 ≤ s_sec
          · rw [if_pos hdeg] at hx
            exact ih x hx
          · rw [if_neg hdeg] at hx
            rcases List.mem_cons.mp hx with hx | hx
            · subst hx
              refine ⟨by simpa [mkPInst] using lt_of_not_le hdeg, ?_⟩
              intro c hc
              cases hc
            · exact ih x hx
        | some c =>
          dsimp only at hx
          by_cases h1 : s_sec ≥ c
          · rw [if_pos h1] at hx
            exact ih x hx
          · rw [if_neg h1] at hx
            by_cases h2 : (if e0 > c then c else e0) ≤ s_sec
            · rw [if_pos h2] at hx
              exact ih x hx
            · rw [if_neg h2] at hx
              rcases List.mem_cons.mp hx with hx | hx
              · subst hx
                constructor
                · simpa [mkPInst] using lt_of_not_le h2
                · intro c2 hc2
                  obtain rfl : c = c2 := by cases hc2; rfl
                  constructor
                  · show (if e0 > c then c else e0) ≤ c
                    by_cases h3 : e0 > c
                    · rw [if_pos h3]
                    · rw [if_neg h3]
                      exact le_of_not_lt h3
                  · show s_sec < c
                    exact lt_of_not_ge h1
              · exact ih x hx

theorem filterDedup_subset (ps : List PInst) :
    ∀ (seen : List (Str × Str × Str)) (x : PInst), x ∈ filterDedup seen ps → x ∈ ps := by
  induction ps with
  | nil => intro seen x hx; rw [filterDedup] at hx; cases hx
  | cons q rest ih =>
    intro seen x hx
    rw [filterDedup] at hx
    cases hq : q.name? with
    | none =>
      rw [hq] at hx
      exact List.mem_cons_of_mem q (ih seen x hx)
    | some nm =>
      rw [hq] at hx
      dsimp only at hx
      by_cases h1 : nm = []
      · rw [if_pos h1] at hx
        exact List.mem_cons_of_mem q (ih seen x hx)
      · rw [if_neg h1] at hx
        by_cases h2 : strStarts "<unnamed-".toList nm = true
        · rw [if_pos h2] at hx
          exact List.mem_cons_of_mem q (ih seen x hx)
        · rw [if_neg h2] at hx
          by_cases h3 : seen.contains (nm, q.start_tc, q.end_tc) = true
          · rw [if_pos h3] at hx
            exact List.mem_cons_of_mem q (ih seen x hx)
          · rw [if_neg h3] at hx
            rcases List.mem_cons.mp hx with hx | hx
            · exact hx ▸ List.mem_cons_self q rest
            · exact List.mem_cons_of_mem q (ih _ x hx)

theorem addToGroup_forall (P : PInst → Prop) (gs : List (Str × List PInst))
    (k : Str) (q : PInst) (hgs : ∀ g ∈ gs, ∀ x ∈ g.2, P x) (hq : P q) :
    ∀ g ∈ addToGroup gs k q, ∀ x ∈ g.2, P x := by
  induction gs with
  | nil =>
    intro g hg x hx
    rw [addToGroup] at hg
    rcases List.mem_cons.mp hg with hg | hg
    · subst hg
      rcases List.mem_cons.mp hx with hx | hx
      · exact hx ▸ hq
      · cases hx
    · cases hg
  | cons g0 rest ih =>
    intro g hg x hx
    obtain ⟨n, l⟩ := g0
    rw [addToGroup] at hg
    by_cases hn : n = k
    · rw [if_pos hn] at hg
      rcases List.mem_cons.mp hg with hg | hg
      · subst hg
        rcases List.mem_append.mp hx with hx | hx
        · exact hgs (n, l) (List.mem_cons_self _ _) x hx
        · rcases List.mem_cons.mp hx with hx | hx
          · exact hx ▸ hq
          · cases hx
      · exact hgs _ (List.mem_cons_of_mem _ hg) x hx
    · rw [if_neg hn] at hg
      rcases List.mem_cons.mp hg with hg | hg
      · subst hg
        exact hgs (n, l) (List.mem_cons_self _ _) x hx
      · exact ih (fun g2 hg2 => hgs g2 (List.mem_cons_of_mem _ hg2)) g hg x hx

theorem buildGroups_foldl_forall (P : PInst → Prop) :
    ∀ (ps : List PInst) (acc : List (Str × List PInst)),
      (∀ g ∈ acc, ∀ x ∈ g.2, P x) → (∀ x ∈ ps, P x) →
      ∀ g ∈ ps.foldl (fun gs q => addToGroup gs (q.name?.getD []) q) acc,
        ∀ x ∈ g.2, P x := by
  intro ps
  induction ps with
  | nil => intro acc hacc _ g hg x hx; exact hacc g hg x hx
  | cons q rest ih =>
    intro acc hacc hps g hg x hx
    rw [List.foldl_cons] at hg
    refine ih _ ?_ (fun y hy => hps y (List.mem_cons_of_mem q hy)) g hg x hx
    exact addToGroup_forall P acc _ q hacc (hps q (List.mem_cons_self q rest))

theorem buildGroups_forall (P : PInst → Prop) (ps : List PInst)
    (hP : ∀ x ∈ ps, P x) :
    ∀ g ∈ buildGroups ps, ∀ x ∈ g.2, P x :=
  buildGroups_foldl_forall P ps [] (by intro g hg; cases hg) hP

theorem perInstancesOf_prop (P : ℚ → ℚ → Prop) (docTexts : List Str)
    (groups : List (Str × List PInst))
    (hP : ∀ g ∈ groups, ∀ i ∈ g.2, P i.start_sec i.end_sec) :
    ∀ x ∈ perInstancesOf docTexts groups, P x.start_sec x.end_sec := by
  intro x hx
  rw [perInstancesOf, mem_sortBy] at hx
  rcases List.mem_flatMap.mp hx with ⟨g2, hg2, hxg⟩
  rcases List.mem_map.mp hg2 with ⟨g, hg, rfl⟩
  rcases List.mem_map.mp hxg with ⟨i, hi, rfl⟩
  dsimp only at hi ⊢
  rw [mem_sortBy] at hi
  exact hP g hg i hi

/-- C6: every instance in the per-instance output of `generate_timeline_data`
satisfies `startSeconds < endSeconds`, and when a cap in seconds is supplied
additionally `endSeconds ≤ cap` and `startSeconds < cap`. -/
theorem c6_per_instance_bounds (p : Proj) (docTexts : List Str) (nm : Str)
    (fps : ℚ) (cap : Option ℚ) (fuel : Nat)
    (out : List GroupedRow × List OutInst)
    (h : generate_timeline_data p docTexts nm fps cap fuel = some (Except.ok out)) :
    ∀ x ∈ out.2, x.start_sec < x.end_sec ∧
      ∀ c, cap = some c → x.end_sec ≤ c ∧ x.start_sec < c := by
  rw [generate_timeline_data] at h
  cases hfind : find_sequence_by_name p nm with
  | none =>
    rw [hfind] at h
    cases h
  | some main =>
    rw [hfind] at h
    dsimp only at h
    cases hfl : flatten_sequence p fuel main.items 0 none none with
    | none => rw [hfl] at h; cases h
    | some all =>
      rw [hfl, Option.map_some'] at h
      obtain hout : out = _ := (Except.ok.inj (Option.some.inj h)).symm
      subst hout
      intro x hx
      refine perInstancesOf_prop
        (fun s e => s < e ∧ ∀ c, cap = some c → e ≤ c ∧ s < c) docTexts _ ?_ x hx
      intro g hg i hi
      refine buildGroups_forall
        (fun i => i.start_sec < i.end_sec ∧ ∀ c, cap = some c → i.end_sec ≤ c ∧ i.start_sec < c)
        _ ?_ g hg i hi
      intro y hy
      exact processInstances_prop all p.frameRate? fps cap y
        (filterDedup_subset _ [] y hy)

/-- C6 witness: running the pipeline on the overlap project with cap 12
yields a per-instance entry with `start_sec = 5`, `end_sec = 12` (clamped),
and the theorem's bounds hold for it at the concrete cap. -/
theorem c6_per_instance_bounds_witness :
    (5 : ℚ) < 12 ∧ (12 : ℚ) ≤ 12 ∧ (5 : ℚ) < 12 := by
  have h : generate_timeline_data overlapProj [] "Main".toList 1 (some 12) 9 =
      some (Except.ok
        ([{ name := "A".toList, instances_count := 2,
            instances := [("00:00:00".toList, "00:00:10".toList),
                          ("00:00:05".toList, "00:00:12".toList)],
            earliest_start := 0, clip_type := ClipType.unknown }],
         [{ name := "A".toList, start_sec := 0, end_sec := 10,
            start_tc := "00:00:00".toList, end_tc := "00:00:10".toList,
            clip_type := ClipType.unknown, source_sequence := none },
          { name := "A".toList, start_sec := 5, end_sec := 12,
            start_tc := "00:00:05".toList, end_tc := "00:00:12".toList,
            clip_type := ClipType.unknown, source_sequence := none }])) := by
    rw [generate_timeline_data]
    rw [show find_sequence_by_name overlapProj "Main".toList = some overlapSeq from by decide]
    dsimp only
    rw [show flatten_sequence overlapProj 9 overlapSeq.items 0 none none =
        some [{ name? := some "A".toList, start_raw := 0, end_raw := 10, source_sequence := none },
              { name? := some "A".toList, start_raw := 5, end_raw := 15, source_sequence := none }] from by
      simp only [overlapProj, overlapSeq]
      simp +decide [flatten_sequence, seqNameLookup, buildSequenceNameMap, insertAssoc,
        lookupAssoc, seqIndexName, clampLeaf]]
    simp only [Option.map_some']
    have tc0 : tc_from_seconds (0 : ℚ) = "00:00:00".toList := by
      rw [show (0 : ℚ) = ((0 : Int) : ℚ) by norm_num, tc_from_seconds_intCast]; decide
    have tc5 : tc_from_seconds (5 : ℚ) = "00:00:05".toList := by
      rw [show (5 : ℚ) = ((5 : Int) : ℚ) by norm_num, tc_from_seconds_intCast]; decide
    have tc10 : tc_from_seconds (10 : ℚ) = "00:00:10".toList := by
      rw [show (10 : ℚ) = ((10 : Int) : ℚ) by norm_num, tc_from_seconds_intCast]; decide
    have tc12 : tc_from_seconds (12 : ℚ) = "00:00:12".toList := by
      rw [show (12 : ℚ) = ((12 : Int) : ℚ) by norm_num, tc_from_seconds_intCast]; decide
    have hct : groupClipType [] ['A'] = ClipType.unknown := by decide
    norm_num [overlapProj, processInstances, seconds_aligned_one, mkPInst,
      tc0, tc5, tc10, tc12, hct, filterDedup, buildGroups, addToGroup,
      groupedRowsOf, groupedSorted, sortBy, insertBy, mkGroupedRow, perInstancesOf,
      strStarts, Function.comp]
  have hx := c6_per_instance_bounds overlapProj [] "Main".toList 1 (some 12) 9 _ h
    { name := "A".toList, start_sec := 5, end_sec := 12,
      start_tc := "00:00:05".toList, end_tc := "00:00:12".toList,
      clip_type := ClipType.unknown, source_sequence := none }
    (by right; left)
  exact ⟨hx.1, (hx.2 12 rfl).1, (hx.2 12 rfl).2⟩

/-- C3 (code level): when no sequence element bears the requested name,
`generate_timeline_data` raises `ValueError('Main sequence not found: ...')`
(modelled as `GenErr.mainSequenceNotFound`) — the repository defines no
`CompositionNotFoundError`.  On success it returns the pair
`(grouped_data, per_instance_data)` of exactly two tables (see the result
type), not the four components `{groupedTable, perInstanceTable, fpsUsed,
frameRateRawValue}` that the specification and the in-repo caller
`app.py` (line 87) expect. -/
theorem c3_main_sequence_not_found (p : Proj) (docTexts : List Str) (nm : Str)
    (fps : ℚ) (cap : Option ℚ) (fuel : Nat)
    (h : find_sequence_by_name p nm = none) :
    generate_timeline_data p docTexts nm fps cap fuel =
      some (Except.error (GenErr.mainSequenceNotFound nm)) := by
  rw [generate_timeline_data, h]

/-- C3 witness: the overlap project has no sequence named "Nope", and the
call fails with the modelled `ValueError`. -/
theorem c3_main_sequence_not_found_witness :
    generate_timeline_data overlapProj [] "Nope".toList 1 none 9 =
      some (Except.error (GenErr.mainSequenceNotFound "Nope".toList)) :=
  c3_main_sequence_not_found overlapProj [] "Nope".toList 1 none 9 (by decide)

/-- C2 counterexample: on the project with two overlapping placements of clip
"A" at `[0, 10)` and `[5, 15)` seconds, the single grouped-view row displays
both intervals `00:00:00-00:00:10` and `00:00:05-00:00:15` unchanged: the
second displayed interval starts (at 5 s) before the first one ends (at
10 s), so the displayed intervals are not pairwise non-overlapping and are
not the result of a maximal-interval merge (which would yield the single
interval `[0, 15)`). -/
theorem c2_unmerged_counterexample :
    generate_timeline_data overlapProj [] "Main".toList 1 none 9 =
      some (Except.ok
        ([{ name := "A".toList, instances_count := 2,
            instances := [("00:00:00".toList, "00:00:10".toList),
                          ("00:00:05".toList, "00:00:15".toList)],
            earliest_start := 0, clip_type := ClipType.unknown }],
         [{ name := "A".toList, start_sec := 0, end_sec := 10,
            start_tc := "00:00:00".toList, end_tc := "00:00:10".toList,
            clip_type := ClipType.unknown, source_sequence := none },
          { name := "A".toList, start_sec := 5, end_sec := 15,
            start_tc := "00:00:05".toList, end_tc := "00:00:15".toList,
            clip_type := ClipType.unknown, source_sequence := none }])) ∧
    tc_to_seconds "00:00:05".toList < tc_to_seconds "00:00:10".toList := by
  constructor
  · rw [generate_timeline_data]
    rw [show find_sequence_by_name overlapProj "Main".toList = some overlapSeq from by decide]
    dsimp only
    rw [show flatten_sequence overlapProj 9 overlapSeq.items 0 none none =
        some [{ name? := some "A".toList, start_raw := 0, end_raw := 10, source_sequence := none },
              { name? := some "A".toList, start_raw := 5, end_raw := 15, source_sequence := none }] from by
      simp only [overlapProj, overlapSeq]
      simp +decide [flatten_sequence, seqNameLookup, buildSequenceNameMap, insertAssoc,
        lookupAssoc, seqIndexName, clampLeaf]]
    simp only [Option.map_some']
    have tc0 : tc_from_seconds (0 : ℚ) = "00:00:00".toList := by
      rw [show (0 : ℚ) = ((0 : Int) : ℚ) by norm_num, tc_from_seconds_intCast]; decide
    have tc5 : tc_from_seconds (5 : ℚ) = "00:00:05".toList := by
      rw [show (5 : ℚ) = ((5 : Int) : ℚ) by norm_num, tc_from_seconds_intCast]; decide
    have tc10 : tc_from_seconds (10 : ℚ) = "00:00:10".toList := by
      rw [show (10 : ℚ) = ((10 : Int) : ℚ) by norm_num, tc_from_seconds_intCast]; decide
    have tc15 : tc_from_seconds (15 : ℚ) = "00:00:15".toList := by
      rw [show (15 : ℚ) = ((15 : Int) : ℚ) by norm_num, tc_from_seconds_intCast]; decide
    have hct : groupClipType [] ['A'] = ClipType.unknown := by decide
    norm_num [overlapProj, processInstances, seconds_aligned_one, mkPInst,
      tc0, tc5, tc10, tc15, hct, filterDedup, buildGroups, addToGroup,
      groupedRowsOf, groupedSorted, sortBy, insertBy, mkGroupedRow, perInstancesOf,
      strStarts, Function.comp]
  · decide

/-- C2 (amended): each grouped-view row displays its group's instances sorted
ascending by start seconds — the row's interval list is exactly the
timecode projection of the group's instance list sorted by `start_sec` —
but the instances are not merged into maximal non-overlapping intervals:
after the earlier removal of exact duplicates, overlapping instances are
displayed as separate, possibly overlapping intervals (see the
counterexample). -/
theorem c2_row_instances_sorted (docTexts : List Str)
    (groups : List (Str × List PInst)) (g : Str × List PInst)
    (hg : g ∈ groupedSorted groups) :
    List.Chain' (fun a b => a.start_sec ≤ b.start_sec) g.2 ∧
    (mkGroupedRow docTexts g).instances = g.2.map (fun i => (i.start_tc, i.end_tc)) := by
  rcases List.mem_map.mp hg with ⟨g0, hg0, rfl⟩
  exact ⟨chain'_sortBy _ _, rfl⟩

/-- C2 witness: the sorting statement applied to a concrete group holding the
two overlapping instances in reversed order. -/
theorem c2_row_instances_sorted_witness :
    List.Chain'
      (fun a b : PInst => a.start_sec ≤ b.start_sec)
      [{ name? := some "A".toList, start_sec := 0, end_sec := 10,
         start_tc := "00:00:00".toList, end_tc := "00:00:10".toList,
         source_sequence := none },
       { name? := some "A".toList, start_sec := 5, end_sec := 15,
         start_tc := "00:00:05".toList, end_tc := "00:00:15".toList,
         source_sequence := none }] ∧
    (mkGroupedRow [] ("A".toList,
      [{ name? := some "A".toList, start_sec := 0, end_sec := 10,
         start_tc := "00:00:00".toList, end_tc := "00:00:10".toList,
         source_sequence := none },
       { name? := some "A".toList, start_sec := 5, end_sec := 15,
         start_tc := "00:00:05".toList, end_tc := "00:00:15".toList,
         source_sequence := none }])).instances =
      [("00:00:00".toList, "00:00:10".toList),
       ("00:00:05".toList, "00:00:15".toList)] :=
  c2_row_instances_sorted []
    [("A".toList,
      [{ name? := some "A".toList, start_sec := 5, end_sec := 15,
         start_tc := "00:00:05".toList, end_tc := "00:00:15".toList,
         source_sequence := none },
       { name? := some "A".toList, start_sec := 0, end_sec := 10,
         start_tc := "00:00:00".toList, end_tc := "00:00:10".toList,
         source_sequence := none }])]
    ("A".toList,
      [{ name? := some "A".toList, start_sec := 0, end_sec := 10,
         start_tc := "00:00:00".toList, end_tc := "00:00:10".toList,
         source_sequence := none },
       { name? := some "A".toList, start_sec := 5, end_sec := 15,
         start_tc := "00:00:05".toList, end_tc := "00:00:15".toList,
         source_sequence := none }])
    (by decide)
